import Mathlib

/-!
Verification development for the LunchBadger/configstore repository engine.

The definitions below are a shallow embedding of the JavaScript sources:

* `src/server/lib/gitrepo.js` — `GitRepo.updateBranchFiles`, `GitRepo.getFile`
  and the typed error hierarchy (`GitRepoError`, `OptimisticConcurrencyError`,
  `InvalidBranchError`, `FileNotFound`);
* `src/server/lib/lock.js` and the async rewrite of the same function in
  `src/unnamed/part_004` — the advisory file lock;
* `src/server/lib/githttp.js` — the receive-pack report parsing and the
  push-event emission on child-process exit;
* `src/server/lib/configvalidator.js` — `ConfigValidator.validate`.

Promise chains become sequential `Except` programs; the filesystem, the Git
object store and the libraries at the system boundary (libgit2 lookups, the
regex engine, `JSON.parse`, ajv) are modelled explicitly as data or as
environment parameters.  All definitions are executable.
-/

deriving instance DecidableEq for Except

namespace Configstore

/-- Errors a request can surface.  Constructors `gitRepoError`,
`optimisticConcurrency`, `invalidBranch`, `fileNotFound` and `lockedError`
mirror the `CustomError` class hierarchy in `src/server/lib/gitrepo.js` and
`src/server/lib/lock.js`.  `enoent` and `eisdir` are Node filesystem errors;
`typeError` is the JavaScript `TypeError` raised when a class constructor is
invoked without `new`. -/
inductive JsError where
  | gitRepoError (msg : String)
  | optimisticConcurrency (repoName branchName : String)
  | invalidBranch (repoName branchName : String)
  | fileNotFound (repoName branchName fileName : String)
  | lockedError (lockPath : String)
  | enoent (p : String)
  | eisdir (p : String)
  | typeError (msg : String)
deriving DecidableEq, Repr

/-- Whether an error belongs to the typed `CustomError`/`GitRepoError`
hierarchy of the core (as opposed to a raw system or JavaScript error). -/
def JsError.isCoreTyped : JsError → Bool
  | .gitRepoError _ => true
  | .optimisticConcurrency _ _ => true
  | .invalidBranch _ _ => true
  | .fileNotFound _ _ _ => true
  | .lockedError _ => true
  | _ => false

/-- Whether an error is specifically the `InvalidBranchError` class. -/
def JsError.isInvalidBranchKind : JsError → Bool
  | .invalidBranch _ _ => true
  | _ => false

/-- A Git commit object: its hex object id, its parent ids, and the files of
its tree as working-tree-relative path / content pairs. -/
structure Commit where
  oid : String
  parentIds : List String
  tree : List (String × String)
deriving DecidableEq, Repr

/-- The state of one repository directory: the commit object store keyed by
object id, the refs under `refs/heads/`, the branch HEAD symbolically points
at, and the working tree (files plus the set of existing subdirectories). -/
structure RepoState where
  commits : List (String × Commit)
  branches : List (String × String)
  headTarget : String
  workFiles : List (String × String)
  workDirs : List String
deriving DecidableEq, Repr

/-- Association-list lookup, first match wins. -/
def lookupL {β : Type} : List (String × β) → String → Option β
  | [], _ => none
  | kv :: rest, k => if kv.1 = k then some kv.2 else lookupL rest k

/-- Overwrite-or-append update of an association list; JavaScript object
update semantics (an existing key keeps its position, a new key is appended). -/
def setA : List (String × String) → String → String → List (String × String)
  | [], k, v => [(k, v)]
  | kv :: rest, k, v => if kv.1 = k then (k, v) :: rest else kv :: setA rest k v

/-- Boolean list membership. -/
def memB : List String → String → Bool
  | [], _ => false
  | x :: rest, k => if x = k then true else memB rest k

/-- Boolean string-starts-with on the underlying character lists. -/
def listStarts : List Char → List Char → Bool
  | [], _ => true
  | _ :: _, [] => false
  | a :: as, b :: bs => if a = b then listStarts as bs else false

/-- `strStarts r s` models `s` starting with `r` (used for object-id
abbreviation lookup and for the receive-pack ref regex). -/
def strStarts (r s : String) : Bool := listStarts r.data s.data

/-- Split a character list on a separator character (JavaScript
`String.prototype.split` semantics: splitting the empty string yields one
empty field). -/
def splitCh (sep : Char) : List Char → List (List Char)
  | [] => [[]]
  | c :: rest =>
    if c = sep then [] :: splitCh sep rest
    else
      match splitCh sep rest with
      | [] => [[c]]
      | h :: t => (c :: h) :: t

/-- Join path segments with a slash. -/
def joinSegs : List (List Char) → List Char
  | [] => []
  | [x] => x
  | x :: y :: rest => x ++ '/' :: joinSegs (y :: rest)

/-- The directory part of a slash-separated path; the empty string means the
working-tree root. -/
def dirOf (p : String) : String :=
  String.mk (joinSegs ((splitCh '/' p.data).dropLast))

/-- All proper directory ancestors of a path, e.g. for `a/b/c` the
directories `a` and `a/b`. -/
def ancestorDirs (p : String) : List String :=
  let segs := (splitCh '/' p.data).dropLast
  (List.range segs.length).map (fun i => String.mk (joinSegs (segs.take (i + 1))))

/-- Directories materialised on disk by checking out a tree. -/
def dirsOfTree (tree : List (String × String)) : List String :=
  tree.foldl (fun acc kv => acc ++ ancestorDirs kv.1) []

/-! ### GitRepo.updateBranchFiles (src/server/lib/gitrepo.js lines 311-431) -/

/-- `git.Reference.lookup(repo, 'HEAD')` followed by `ref.resolve()`: HEAD is
unborn exactly when the branch it symbolically targets does not exist yet. -/
def headUnborn (s : RepoState) : Bool := (lookupL s.branches s.headTarget).isNone

/-- The checkout step of `updateBranchFiles` (lines 343-362): when HEAD is
unborn, `ref.symbolicSetTarget` repoints HEAD at the requested branch and the
head commit is `null`; otherwise `repo.checkoutBranch(branchName)` moves HEAD
to the branch and materialises its tree in the working directory, and a
missing branch ("no reference found") raises `new GitRepoError('Invalid
branch')` — note: the generic class, not `InvalidBranchError`. -/
def checkoutStage (s : RepoState) (branchName : String) :
    Except JsError (RepoState × Option Commit) :=
  if headUnborn s then
    .ok ({ s with headTarget := branchName }, none)
  else
    match lookupL s.branches branchName with
    | none => .error (.gitRepoError "Invalid branch")
    | some oid =>
      match lookupL s.commits oid with
      | none => .error (.gitRepoError "branch target missing from object store")
      | some c =>
        .ok ({ s with headTarget := branchName,
                      workFiles := c.tree,
                      workDirs := dirsOfTree c.tree }, some c)

/-- A single hex digit, as accepted by the libgit2 object-id parser. -/
def isHexChar (c : Char) : Bool :=
  (('0' ≤ c && c ≤ '9') || ('a' ≤ c && c ≤ 'f') || ('A' ≤ c && c ≤ 'F'))

/-- A string acceptable to `git_oid_fromstrn`: only hex digits, at least the
minimum abbreviation length and at most a full 40-character id. -/
def validOidStr (r : String) : Bool :=
  (4 ≤ r.data.length && r.data.length ≤ 40) && r.data.all isHexChar

/-- Outcome of `git.Commit.lookupPrefix`. -/
inductive OidLookup where
  | parseFail
  | missing
  | ambiguous
  | found (c : Commit)
deriving DecidableEq, Repr

/-- `git.Commit.lookupPrefix(repo, rev, rev.length)`: an unparsable revision
string fails with the libgit2 "Unable to parse OID" error; otherwise the
object store is searched for commits whose id starts with the abbreviation. -/
def lookupCommitByRevStr (s : RepoState) (r : String) : OidLookup :=
  if validOidStr r then
    match s.commits.filter (fun kv => strStarts r kv.1) with
    | [] => .missing
    | [kv] => .found kv.2
    | _ => .ambiguous
  else .parseFail

/-- JavaScript truthiness of the `parentRevision` argument: `undefined`,
`null` and the empty string are all falsy in the `if (parentRevision &&
headCommit)` tests of the source. -/
def prNorm : Option String → Option String
  | none => none
  | some r => if r = "" then none else some r

/-- The optimistic-concurrency step of `updateBranchFiles` (lines 364-386):
four cases on the caller-supplied parent revision and the current head
commit.  A parse failure of the revision string and a resolved id different
from the head id raise `OptimisticConcurrencyError`; other lookup failures
propagate; a parent revision without a head commit raises a generic
`GitRepoError`; a head commit without a parent revision raises
`OptimisticConcurrencyError`; neither yields an empty parent list. -/
def concCheck (s : RepoState) (repoName branchName : String)
    (parentRevision : Option String) (headCommit : Option Commit) :
    Except JsError (List Commit) :=
  match prNorm parentRevision, headCommit with
  | some r, some h =>
    match lookupCommitByRevStr s r with
    | .parseFail => .error (.optimisticConcurrency repoName branchName)
    | .missing => .error (.gitRepoError "object not found")
    | .ambiguous => .error (.gitRepoError "ambiguous abbreviated object id")
    | .found c =>
      if h.oid = c.oid then .ok [c]
      else .error (.optimisticConcurrency repoName branchName)
  | some _, none => .error (.gitRepoError "Given parent revision is invalid")
  | none, some _ => .error (.optimisticConcurrency repoName branchName)
  | none, none => .ok []

/-- `fs.writeFileAsync(path.join(this.path, fname), content)` (lines
388-397): the plain write fails with `EISDIR` when the path is an existing
directory and with `ENOENT` when an intermediate directory does not exist —
the source creates no intermediate directories. -/
def writeWorkFile (s : RepoState) (fname content : String) :
    Except JsError RepoState :=
  if memB s.workDirs fname then .error (.eisdir fname)
  else if dirOf fname = "" || memB s.workDirs (dirOf fname) then
    .ok { s with workFiles := setA s.workFiles fname content }
  else .error (.enoent fname)

/-- `Promise.all` over the writes of every `(path, content)` pair of the
`files` object. -/
def writeAllFiles (s : RepoState) (files : List (String × String)) :
    Except JsError RepoState :=
  match files with
  | [] => .ok s
  | kv :: rest => do
    let s1 ← writeWorkFile s kv.1 kv.2
    writeAllFiles s1 rest

/-- Duplicate-free key list. -/
def dedupKeys : List String → List String
  | [] => []
  | k :: rest =>
    let r := dedupKeys rest
    if memB r k then r else k :: r

/-- `repo.getStatus()` (line 399): the number of paths whose working-tree
content differs from the index (the index agrees with the checked-out tree,
or is empty on an unborn HEAD). -/
def statusCount (work index : List (String × String)) : Nat :=
  ((dedupKeys (work.map Prod.fst ++ index.map Prod.fst)).filter
    (fun k => lookupL work k != lookupL index k)).length

/-- The staging-and-commit step (lines 400-424): when this is an initial
commit or the status reports changes, `addAll` stages the working tree,
`writeTree` produces its tree, and `createCommit('HEAD', ...)` advances the
branch HEAD points at to a fresh commit whose parents are the resolved
parent list; otherwise no commit is created and the given `parentRevision`
is returned unchanged. -/
def commitStage (s : RepoState) (index : List (String × String))
    (initialCommit : Bool) (parents : List Commit)
    (parentRevision : Option String) (newOid : String) :
    RepoState × Option String :=
  let changes := statusCount s.workFiles index
  if initialCommit = true ∨ changes ≠ 0 then
    let c : Commit := { oid := newOid, parentIds := parents.map Commit.oid,
                        tree := s.workFiles }
    ({ s with commits := (newOid, c) :: s.commits,
              branches := setA s.branches s.headTarget newOid }, some newOid)
  else (s, parentRevision)

/-- `GitRepo.updateBranchFiles(branchName, parentRevision, files)`
(src/server/lib/gitrepo.js lines 311-431), as the sequential composition of
its promise chain.  `newOid` stands for the object id the object database
assigns to the created commit.  The result is the final repository state
plus the value the promise resolves with. -/
def updateBranchFiles (s : RepoState) (repoName branchName : String)
    (parentRevision : Option String) (files : List (String × String))
    (newOid : String) : Except JsError (RepoState × Option String) := do
  let initial := headUnborn s
  let (s1, headCommit) ← checkoutStage s branchName
  let parents ← concCheck s1 repoName branchName parentRevision headCommit
  let s2 ← writeAllFiles s1 files
  let index := match headCommit with
    | some c => c.tree
    | none => []
  pure (commitStage s2 index initial parents parentRevision newOid)

/-! ### GitRepo.getFile (src/server/lib/gitrepo.js lines 433-468) -/

/-- A tree entry is either a blob or a subtree. -/
inductive TreeEntry where
  | blob (content : String)
  | subtree
deriving DecidableEq, Repr

/-- `tree.getEntry(fileName)` over the flat path/content tree model: an
exact path is a blob, a proper directory of a stored path is a subtree. -/
def treeEntry (tree : List (String × String)) (p : String) : Option TreeEntry :=
  match lookupL tree p with
  | some content => some (.blob content)
  | none =>
    if tree.any (fun kv => strStarts (p ++ "/") kv.1) then some .subtree
    else none

/-- The message of the JavaScript `TypeError` produced by `throw
GitRepoError(...)` — the source omits `new` on both throws inside
`getFile`, so a class constructor is invoked as a plain function. -/
def ctorNoNewMsg : String :=
  "Class constructor GitRepoError cannot be invoked without new"

/-- `GitRepo.getFile(branchName, fileName)` (lines 433-468): resolve the
branch commit, remember its id as the checksum, look the path up in its
tree; a missing entry becomes `FileNotFound`; a non-blob entry and a blob
larger than 1 MiB hit the `throw GitRepoError(...)` statements, which —
lacking `new` — raise a JavaScript `TypeError` instead of a core error. -/
def getFile (s : RepoState) (repoName branchName fileName : String) :
    Except JsError (String × String) :=
  match lookupL s.branches branchName with
  | none => .error (.gitRepoError "no such branch")
  | some oid =>
    match lookupL s.commits oid with
    | none => .error (.gitRepoError "branch target missing from object store")
    | some c =>
      match treeEntry c.tree fileName with
      | none => .error (.fileNotFound repoName branchName fileName)
      | some .subtree => .error (.typeError ctorNoNewMsg)
      | some (.blob content) =>
        if content.length > 1024 * 1024 then .error (.typeError ctorNoNewMsg)
        else .ok (content, oid)

/-- Modelled from the spec: `branchRevision(name) → hex` — "commit hash the
branch points at; `InvalidBranch` if missing" (§4.C).  The `getBranchRevision`
method of the full `GitRepo` facade is not among the sources; only its tests
and callers are, so this definition follows the specification sentence. -/
def getBranchRevision (s : RepoState) (repoName branchName : String) :
    Except JsError String :=
  match lookupL s.branches branchName with
  | none => .error (.invalidBranch repoName branchName)
  | some oid => .ok oid

/-! ### The advisory file lock (src/server/lib/lock.js, src/unnamed/part_004) -/

/-- The set of lock-file paths currently flocked by some holder. -/
structure LockState where
  held : List String
deriving DecidableEq, Repr

/-- The async rewrite of `lock(lockPath, fn)` in `src/unnamed/part_004`
(lines 161-180): open the sentinel with mode `w`, take a non-blocking
exclusive flock (`EAGAIN` becomes `LockedError`), then `return await fn()`
with the close — which releases the lock — in a `finally` block, so the
body's result or error passes through unchanged. -/
def lockRun {α : Type} (ls : LockState) (lockPath : String)
    (fn : LockState → LockState × Except JsError α) :
    LockState × Except JsError α :=
  if memB ls.held lockPath then (ls, .error (.lockedError lockPath))
  else
    let ls1 : LockState := ⟨lockPath :: ls.held⟩
    let (ls2, res) := fn ls1
    (⟨ls2.held.erase lockPath⟩, res)

/-- The promise-chain `lock(lockPath, fn)` in `src/server/lib/lock.js`
(lines 22-48): the chain is `open → flock → fn → unlock → catch`.  The
success value handed to the caller comes from `.then(unlock)`, i.e. from
`fs.closeAsync`, which resolves with `undefined` — modelled as `none`; the
body's value is discarded.  On failure the lock is released and the body's
error is rethrown unchanged. -/
def lockJs {α : Type} (ls : LockState) (lockPath : String)
    (fn : LockState → LockState × Except JsError α) :
    LockState × Except JsError (Option α) :=
  if memB ls.held lockPath then (ls, .error (.lockedError lockPath))
  else
    let ls1 : LockState := ⟨lockPath :: ls.held⟩
    let (ls2, res) := fn ls1
    match res with
    | .ok _ => (⟨ls2.held.erase lockPath⟩, .ok none)
    | .error e => (⟨ls2.held.erase lockPath⟩, .error e)

/-! ### Receive-pack report parsing and push events
(src/server/lib/githttp.js lines 107-238, src/unnamed/part_003 lines 86-208) -/

/-- One parsed ref update of a receive-pack report: `{type, ref, before,
after}` where `ctype` stands for the source's `type` field. -/
structure Change where
  ctype : String
  ref : String
  before : String
  afterId : String
deriving DecidableEq, Repr

/-- The push event published on the process-local bus. -/
structure PushEvent where
  repo : String
  changes : List Change
deriving DecidableEq, Repr

/-- Leading/trailing whitespace removal (JavaScript `trim`). -/
def jsTrimL (l : List Char) : List Char :=
  ((l.dropWhile Char.isWhitespace).reverse.dropWhile Char.isWhitespace).reverse

/-- The ref regex of the source (alternation of head and tag refs): scan for the
first occurrence of `refs/heads/` or `refs/tags/` and capture the kind and
the remainder of the string. -/
def matchRefAux : List Char → Option (String × String)
  | [] => none
  | c :: rest =>
    if listStarts "refs/heads/".data (c :: rest) then
      some ("head", String.mk ((c :: rest).drop 11))
    else if listStarts "refs/tags/".data (c :: rest) then
      some ("tag", String.mk ((c :: rest).drop 10))
    else matchRefAux rest

/-- One line of the accumulated report: trim it, drop it when empty, split
on spaces into `before`, `after` and `ref`, and keep it only when the ref
matches the head/tag regex.  (A non-empty line with fewer than three fields
would crash the JavaScript callback on `undefined.match`; it is modelled as
a non-match.) -/
def parseChangeLineL (line : List Char) : Option Change :=
  let t := jsTrimL line
  if t.length = 0 then none
  else
    let parts := splitCh ' ' t
    let bef := String.mk (parts.getD 0 [])
    let aft := String.mk (parts.getD 1 [])
    let ref := parts.getD 2 []
    match matchRefAux ref with
    | none => none
    | some (ty, name) =>
      some { ctype := ty, ref := name, before := bef, afterId := aft }

/-- The receive-pack callback body (githttp.js lines 111-138): strip a
leading `\u0002` byte, trim, split into lines, parse each line, and keep
the parsed changes. -/
def parseChanges (out : String) : List Change :=
  let l0 := out.data
  let l1 := match l0 with
    | c :: rest => if c = Char.ofNat 2 then rest else l0
    | [] => l0
  ((splitCh '\n' (jsTrimL l1)).filterMap parseChangeLineL)

/-- The `git.on('exit', ...)` handler installed by `runService`
(githttp.js lines 196-238): the tee output is read back and the callback —
installed exactly for `git-receive-pack` — emits one `push` event.  The
handler takes no exit-code argument and performs no exit-code test, so the
`exitCode` parameter is unused. -/
def runServiceOnExit (service repo teeOutput : String) (exitCode : Int) :
    Option PushEvent :=
  let _ := exitCode
  if service = "git-receive-pack" then
    some { repo := repo, changes := parseChanges teeOutput }
  else none

/-! ### ConfigValidator.validate (src/server/lib/configvalidator.js lines 27-61) -/

/-- Outcome of `JSON.parse`: a value, a parse failure, or some other
exception (which `validate` rethrows). -/
inductive ParseOutcome (J : Type) where
  | success (j : J)
  | malformed
  | otherErr (msg : String)
deriving DecidableEq

/-- The external libraries `validate` relies on: the regex engine
(`fileName.match(pattern) !== null`), `JSON.parse`, and
`ajv.validate` together with the formatted error list built from
`ajv.errors`. -/
structure ValidatorEnv (J : Type) where
  jsMatch : String → String → Bool
  jsonParse : String → ParseOutcome J
  ajvValidate : String → J → Bool × List String

/-- The validator's mutable state: the registered `(pattern, schemaName)`
pairs in registration order, and the `errors` list. -/
structure ValidatorState where
  patterns : List (String × String)
  errors : List String
deriving DecidableEq, Repr

/-- `ConfigValidator.validate(fileName, data)`: reset `errors`; find the
first pattern matching `fileName` (none → accept); parse `data` as JSON
(a `SyntaxError` is a rejection with a diagnostic, other exceptions are
rethrown); then check the parsed value against the schema of the first
matching pattern, accumulating formatted ajv errors on failure. -/
def validate {J : Type} (env : ValidatorEnv J) (st : ValidatorState)
    (fileName data : String) : Except String (ValidatorState × Bool) :=
  let st0 : ValidatorState := { st with errors := [] }
  match st0.patterns.find? (fun pn => env.jsMatch pn.1 fileName) with
  | none => .ok (st0, true)
  | some pn =>
    match env.jsonParse data with
    | .malformed =>
      .ok ({ st0 with
             errors := st0.errors ++ ["File " ++ fileName ++ " is not proper JSON"] },
           false)
    | .otherErr m => .error m
    | .success j =>
      let r := env.ajvValidate pn.2 j
      if r.1 then .ok (st0, true)
      else
        .ok ({ st0 with
               errors := r.2.map
                 (fun e => "File " ++ fileName ++ " invalid format: " ++ e) },
             false)

/-! ### Helper lemmas -/

theorem exbind_ok {α β : Type} (x : α) (f : α → Except JsError β) :
    (Except.ok x >>= f) = f x := rfl

theorem exbind_err {α β : Type} (e : JsError) (f : α → Except JsError β) :
    ((Except.error e : Except JsError α) >>= f) = Except.error e := rfl

theorem lookupL_setA_self (l : List (String × String)) (k v : String) :
    lookupL (setA l k v) k = some v := by
  induction l with
  | nil => simp [setA, lookupL]
  | cons kv rest ih =>
    by_cases h : kv.1 = k
    · simp [setA, h, lookupL]
    · simp [setA, h, lookupL, ih]

theorem mem_keys_setA (l : List (String × String)) (k v : String) :
    k ∈ (setA l k v).map Prod.fst := by
  induction l with
  | nil => simp [setA]
  | cons kv rest ih =>
    by_cases h : kv.1 = k
    · simp [setA, h]
    · simp only [setA, if_neg h, List.map_cons]
      exact List.mem_cons_of_mem _ ih

theorem memB_true_of_mem (l : List String) (k : String) (h : k ∈ l) :
    memB l k = true := by
  induction l with
  | nil => cases h
  | cons x rest ih =>
    rcases List.mem_cons.mp h with h1 | h2
    · simp [memB, h1]
    · by_cases hx : x = k
      · simp [memB, hx]
      · simp [memB, hx, ih h2]

theorem mem_dedupKeys_of_mem (l : List String) (k : String) (h : k ∈ l) :
    k ∈ dedupKeys l := by
  induction l with
  | nil => cases h
  | cons x rest ih =>
    rcases List.mem_cons.mp h with h1 | h2
    · subst h1
      by_cases hx : memB (dedupKeys rest) k = true
      · simpa [dedupKeys, hx] using memB_mem hx
      · simp [dedupKeys, hx]
    · by_cases hx : memB (dedupKeys rest) x = true
      · simpa [dedupKeys, hx] using ih h2
      · simp [dedupKeys, hx]
        right
        exact ih h2
where
  memB_mem {l : List String} {k : String} (h : memB l k = true) : k ∈ l := by
    induction l with
    | nil => simp [memB] at h
    | cons x rest ih =>
      by_cases hx : x = k
      · simp [hx]
      · simp [memB, hx] at h
        simp [ih h]

theorem mem_of_lookupL {β : Type} (l : List (String × β)) (k : String) (v : β)
    (h : lookupL l k = some v) : (k, v) ∈ l := by
  induction l with
  | nil => simp [lookupL] at h
  | cons kv rest ih =>
    cases kv with
    | mk a b =>
      by_cases hk : a = k
      · subst hk
        simp [lookupL] at h
        subst h
        exact List.mem_cons_self _ _
      · simp [lookupL, hk] at h
        exact List.mem_cons_of_mem _ (ih h)

/-- A zero status count means every working-tree path agrees with the index. -/
theorem statusCount_zero_agree (work index : List (String × String))
    (h : statusCount work index = 0) (k : String)
    (hk : k ∈ work.map Prod.fst) : lookupL work k = lookupL index k := by
  unfold statusCount at h
  rw [List.length_eq_zero] at h
  have hmem : k ∈ dedupKeys (work.map Prod.fst ++ index.map Prod.fst) :=
    mem_dedupKeys_of_mem _ _ (List.mem_append.mpr (Or.inl hk))
  have := List.filter_eq_nil_iff.mp h k hmem
  simpa [bne_iff_ne] using this

/-- Successful file writes touch only the working tree. -/
theorem writeWorkFile_pres (s s2 : RepoState) (p v : String)
    (h : writeWorkFile s p v = .ok s2) :
    s2.commits = s.commits ∧ s2.branches = s.branches ∧
    s2.headTarget = s.headTarget ∧ s2.workDirs = s.workDirs ∧
    s2.workFiles = setA s.workFiles p v := by
  unfold writeWorkFile at h
  split at h
  · cases h
  · split at h
    · injection h with h
      subst h
      simp
    · cases h

theorem writeAllFiles_pres (files : List (String × String)) :
    ∀ s s2 : RepoState, writeAllFiles s files = .ok s2 →
    s2.commits = s.commits ∧ s2.branches = s.branches ∧
    s2.headTarget = s.headTarget := by
  induction files with
  | nil =>
    intro s s2 h
    unfold writeAllFiles at h
    injection h with h
    subst h
    simp
  | cons kv rest ih =>
    intro s s2 h
    unfold writeAllFiles at h
    cases hw : writeWorkFile s kv.1 kv.2 with
    | error e => rw [hw] at h; cases h
    | ok s1 =>
      rw [hw, exbind_ok] at h
      obtain ⟨h1, h2, h3, _, _⟩ := writeWorkFile_pres s s1 kv.1 kv.2 hw
      obtain ⟨g1, g2, g3⟩ := ih s1 s2 h
      exact ⟨g1.trans h1, g2.trans h2, g3.trans h3⟩

/-- Writing a single file updates the working tree by `setA`. -/
theorem writeAllFiles_single (s s2 : RepoState) (p v : String)
    (h : writeAllFiles s [(p, v)] = .ok s2) :
    s2 = { s with workFiles := setA s.workFiles p v } := by
  unfold writeAllFiles at h
  cases hw : writeWorkFile s p v with
  | error e => rw [hw] at h; cases h
  | ok s1 =>
    rw [hw, exbind_ok] at h
    unfold writeAllFiles at h
    injection h with h
    subst h
    obtain ⟨h1, h2, h3, h4, h5⟩ := writeWorkFile_pres s s1 p v hw
    cases s1
    simp_all

/-- Inversion of a successful checkout with a head commit. -/
theorem checkoutStage_ok_some (s s1 : RepoState) (bn : String) (c : Commit)
    (h : checkoutStage s bn = .ok (s1, some c)) :
    headUnborn s = false ∧
    ∃ oid, lookupL s.branches bn = some oid ∧ lookupL s.commits oid = some c ∧
      s1 = { s with headTarget := bn, workFiles := c.tree,
                    workDirs := dirsOfTree c.tree } := by
  unfold checkoutStage at h
  split at h
  · rename_i hh
    injection h with h
    injection h with h1 h2
    cases h2
  · rename_i hh
    split at h
    · cases h
    · rename_i oid hb
      split at h
      · cases h
      · rename_i c2 hc
        injection h with h
        injection h with h1 h2
        injection h2 with h2
        subst h2
        exact ⟨by simpa using hh, oid, hb, hc, h1.symm⟩

/-- Inversion of a successful checkout on an unborn HEAD. -/
theorem checkoutStage_ok_none (s s1 : RepoState) (bn : String)
    (h : checkoutStage s bn = .ok (s1, none)) :
    headUnborn s = true ∧ s1 = { s with headTarget := bn } := by
  unfold checkoutStage at h
  split at h
  · rename_i hh
    injection h with h
    injection h with h1 h2
    exact ⟨by simpa using hh, h1.symm⟩
  · rename_i hh
    split at h
    · cases h
    · rename_i oid hb
      split at h
      · cases h
      · rename_i c2 hc
        injection h with h
        injection h with h1 h2
        cases h2

/-- A found abbreviated lookup result starts the stored key. -/
theorem lookupCommitByRevStr_found (s : RepoState) (r : String) (c : Commit)
    (h : lookupCommitByRevStr s r = .found c) :
    ∃ key, (key, c) ∈ s.commits ∧ strStarts r key = true := by
  unfold lookupCommitByRevStr at h
  split at h
  · cases hf : s.commits.filter (fun kv => strStarts r kv.1) with
    | nil => rw [hf] at h; cases h
    | cons kv rest =>
      cases rest with
      | nil =>
        rw [hf] at h
        injection h with h
        subst h
        have hm : kv ∈ s.commits.filter (fun kv => strStarts r kv.1) := by
          rw [hf]; simp
        have h1 := List.mem_of_mem_filter hm
        have h2 := List.of_mem_filter hm
        exact ⟨kv.1, by simpa using h1, by simpa using h2⟩
      | cons kv2 rest2 => rw [hf] at h; cases h
  · cases h

theorem listStarts_self (l : List Char) : listStarts l l = true := by
  induction l with
  | nil => rfl
  | cons c rest ih => simp [listStarts, ih]

theorem strStarts_self (a : String) : strStarts a a = true :=
  listStarts_self a.data

theorem lookupL_cons_self {β : Type} (k : String) (v : β)
    (l : List (String × β)) : lookupL ((k, v) :: l) k = some v := by
  simp [lookupL]

/-- Inversion of a successful concurrency check against a head commit: the
parent revision was truthy, it resolved, the ids agree, and the resolved
commit is the sole parent. -/
theorem concCheck_ok_some (s : RepoState) (rn bn : String)
    (pr : Option String) (c : Commit) (parents : List Commit)
    (h : concCheck s rn bn pr (some c) = .ok parents) :
    ∃ r c2, prNorm pr = some r ∧ lookupCommitByRevStr s r = .found c2 ∧
      c.oid = c2.oid ∧ parents = [c2] := by
  unfold concCheck at h
  split at h
  · rename_i r c3 hpn hcm
    injection hcm with hcm
    subst hcm
    split at h
    · cases h
    · cases h
    · cases h
    · rename_i c2 hl
      split at h
      · rename_i heq
        injection h with h
        exact ⟨r, c2, hpn, hl, heq, h.symm⟩
      · cases h
  · cases h
  · cases h
  · rename_i hpn hcm
    cases hcm

/-- `commitStage` either creates a commit (initial commit or changes
present) or skips and echoes the parent revision. -/
theorem commitStage_cases (s2 : RepoState) (index : List (String × String))
    (initial : Bool) (parents : List Commit) (pr : Option String)
    (newOid : String) :
    (commitStage s2 index initial parents pr newOid =
       ({ s2 with
          commits := (newOid, { oid := newOid,
                                parentIds := parents.map Commit.oid,
                                tree := s2.workFiles }) :: s2.commits,
          branches := setA s2.branches s2.headTarget newOid }, some newOid) ∧
     (initial = true ∨ statusCount s2.workFiles index ≠ 0)) ∨
    (commitStage s2 index initial parents pr newOid = (s2, pr) ∧
     initial = false ∧ statusCount s2.workFiles index = 0) := by
  by_cases hcond : initial = true ∨ statusCount s2.workFiles index ≠ 0
  · left
    exact ⟨by simp only [commitStage, if_pos hcond], hcond⟩
  · right
    have hcond2 := hcond
    push_neg at hcond2
    exact ⟨by simp only [commitStage, if_neg hcond],
           by simpa using hcond2.1, hcond2.2⟩

/-! ### Concrete fixtures for witnesses and counterexamples -/

def oidA : String := "aaaaaaaaaaaaaaaaaaaaaaaaaaaaaaaaaaaaaaaa"

def oidB : String := "bbbbbbbbbbbbbbbbbbbbbbbbbbbbbbbbbbbbbbbb"

def newO : String := "cccccccccccccccccccccccccccccccccccccccc"

def cA : Commit := { oid := oidA, parentIds := [], tree := [("f.txt", "one")] }

def cB : Commit := { oid := oidB, parentIds := [], tree := [("f.txt", "two")] }

/-- A repository with two commits and one branch `b` at `cA`, checked out. -/
def sBornW : RepoState :=
  { commits := [(oidA, cA), (oidB, cB)], branches := [("b", oidA)],
    headTarget := "b", workFiles := cA.tree, workDirs := [] }

/-- A freshly created repository: no commits, no branches, unborn HEAD. -/
def sUnbW : RepoState :=
  { commits := [], branches := [], headTarget := "master",
    workFiles := [], workDirs := [] }

/-! ### Claim C1 -/

/-- C1: for `updateBranchFiles(branch, parentRevision, files)` with head
commit `H` of the checked-out branch: when `parentRevision` is given and `H`
exists, the revision is resolved as an id abbreviation, an unparsable
revision or a resolved id different from `H` raises
`OptimisticConcurrency`, and otherwise the resolved commit becomes the sole
parent; a `parentRevision` without a head commit raises a generic error; a
head commit without a `parentRevision` raises `OptimisticConcurrency`; and
with neither the operation proceeds with an empty parent list. -/
theorem updateBranchFiles_concurrency_cases :
    (∀ (s s1 : RepoState) (rn bn r newOid : String)
       (files : List (String × String)) (c : Commit),
      checkoutStage s bn = .ok (s1, some c) →
      lookupCommitByRevStr s1 r = .parseFail → r ≠ "" →
      updateBranchFiles s rn bn (some r) files newOid =
        .error (.optimisticConcurrency rn bn)) ∧
    (∀ (s s1 : RepoState) (rn bn r newOid : String)
       (files : List (String × String)) (c c2 : Commit),
      checkoutStage s bn = .ok (s1, some c) →
      lookupCommitByRevStr s1 r = .found c2 → r ≠ "" → c.oid ≠ c2.oid →
      updateBranchFiles s rn bn (some r) files newOid =
        .error (.optimisticConcurrency rn bn)) ∧
    (∀ (s s1 : RepoState) (rn bn r newOid : String)
       (files : List (String × String)) (c c2 : Commit),
      checkoutStage s bn = .ok (s1, some c) →
      lookupCommitByRevStr s1 r = .found c2 → r ≠ "" → c.oid = c2.oid →
      concCheck s1 rn bn (some r) (some c) = .ok [c2] ∧
      updateBranchFiles s rn bn (some r) files newOid =
        (match writeAllFiles s1 files with
         | .error e => .error e
         | .ok s2 => .ok (commitStage s2 c.tree false [c2] (some r) newOid))) ∧
    (∀ (s : RepoState) (rn bn r newOid : String)
       (files : List (String × String)),
      headUnborn s = true → r ≠ "" →
      updateBranchFiles s rn bn (some r) files newOid =
        .error (.gitRepoError "Given parent revision is invalid")) ∧
    (∀ (s s1 : RepoState) (rn bn newOid : String)
       (files : List (String × String)) (c : Commit),
      checkoutStage s bn = .ok (s1, some c) →
      updateBranchFiles s rn bn none files newOid =
        .error (.optimisticConcurrency rn bn)) ∧
    (∀ (s : RepoState) (rn bn newOid : String)
       (files : List (String × String)),
      headUnborn s = true →
      concCheck { s with headTarget := bn } rn bn none none = .ok [] ∧
      updateBranchFiles s rn bn none files newOid =
        (match writeAllFiles { s with headTarget := bn } files with
         | .error e => .error e
         | .ok s2 => .ok (commitStage s2 [] true [] none newOid))) := by
  refine ⟨?_, ?_, ?_, ?_, ?_, ?_⟩
  · intro s s1 rn bn r newOid files c h1 h2 hr
    simp [updateBranchFiles, h1, exbind_ok, exbind_err, concCheck, prNorm,
          hr, h2]
  · intro s s1 rn bn r newOid files c c2 h1 h2 hr hne
    simp [updateBranchFiles, h1, exbind_ok, exbind_err, concCheck, prNorm,
          hr, h2, hne]
  · intro s s1 rn bn r newOid files c c2 h1 h2 hr heq
    have hcc : concCheck s1 rn bn (some r) (some c) = .ok [c2] := by
      simp [concCheck, prNorm, hr, h2, heq]
    refine ⟨hcc, ?_⟩
    have hub : headUnborn s = false := (checkoutStage_ok_some s s1 bn c h1).1
    cases hw : writeAllFiles s1 files with
    | error e =>
      simp [updateBranchFiles, h1, exbind_ok, exbind_err, hcc, hw, hub]
    | ok s2 =>
      simp [updateBranchFiles, h1, exbind_ok, exbind_err, hcc, hw, hub]
  · intro s rn bn r newOid files hub hr
    have hco : checkoutStage s bn = .ok ({ s with headTarget := bn }, none) := by
      simp [checkoutStage, hub]
    simp [updateBranchFiles, hco, exbind_ok, exbind_err, concCheck, prNorm, hr]
  · intro s s1 rn bn newOid files c h1
    simp [updateBranchFiles, h1, exbind_ok, exbind_err, concCheck, prNorm]
  · intro s rn bn newOid files hub
    have hco : checkoutStage s bn = .ok ({ s with headTarget := bn }, none) := by
      simp [checkoutStage, hub]
    refine ⟨by simp [concCheck, prNorm], ?_⟩
    cases hw : writeAllFiles { s with headTarget := bn } files with
    | error e =>
      simp [updateBranchFiles, hco, exbind_ok, exbind_err, concCheck, prNorm,
            hw, hub]
    | ok s2 =>
      simp [updateBranchFiles, hco, exbind_ok, exbind_err, concCheck, prNorm,
            hw, hub]

/-- C1 witness: each of the six cases evaluated on a concrete repository. -/
theorem updateBranchFiles_concurrency_cases_witness :
    (updateBranchFiles sBornW "repo" "b" (some "zz99") [("g.txt", "x")] newO =
      .error (.optimisticConcurrency "repo" "b")) ∧
    (updateBranchFiles sBornW "repo" "b" (some "bbbb") [("g.txt", "x")] newO =
      .error (.optimisticConcurrency "repo" "b")) ∧
    (concCheck sBornW "repo" "b" (some "aaaa") (some cA) = .ok [cA] ∧
     updateBranchFiles sBornW "repo" "b" (some "aaaa") [("g.txt", "x")] newO =
       (match writeAllFiles sBornW [("g.txt", "x")] with
        | .error e => .error e
        | .ok s2 => .ok (commitStage s2 cA.tree false [cA] (some "aaaa") newO))) ∧
    (updateBranchFiles sUnbW "repo" "b2" (some "aaaa") [] newO =
      .error (.gitRepoError "Given parent revision is invalid")) ∧
    (updateBranchFiles sBornW "repo" "b" none [] newO =
      .error (.optimisticConcurrency "repo" "b")) ∧
    (concCheck { sUnbW with headTarget := "b2" } "repo" "b2" none none = .ok [] ∧
     updateBranchFiles sUnbW "repo" "b2" none [] newO =
       (match writeAllFiles { sUnbW with headTarget := "b2" } [] with
        | .error e => .error e
        | .ok s2 => .ok (commitStage s2 [] true [] none newO))) :=
  ⟨updateBranchFiles_concurrency_cases.1 sBornW sBornW "repo" "b" "zz99" newO
      [("g.txt", "x")] cA (by decide) (by decide) (by decide),
   updateBranchFiles_concurrency_cases.2.1 sBornW sBornW "repo" "b" "bbbb" newO
      [("g.txt", "x")] cA cB (by decide) (by decide) (by decide) (by decide),
   updateBranchFiles_concurrency_cases.2.2.1 sBornW sBornW "repo" "b" "aaaa"
      newO [("g.txt", "x")] cA cA (by decide) (by decide) (by decide) (by decide),
   updateBranchFiles_concurrency_cases.2.2.2.1 sUnbW "repo" "b2" "aaaa" newO
      [] (by decide) (by decide),
   updateBranchFiles_concurrency_cases.2.2.2.2.1 sBornW sBornW "repo" "b" newO
      [] cA (by decide),
   updateBranchFiles_concurrency_cases.2.2.2.2.2 sUnbW "repo" "b2" newO []
      (by decide)⟩

/-! ### Claim C2 -/

/-- C2: on a branch that already has commits, when the post-write status
reports no difference from the index, `updateBranchFiles` creates no commit
and returns the given `parentRevision` unchanged. -/
theorem updateBranchFiles_noop_idempotent
    (s s1 s2 : RepoState) (rn bn r newOid : String)
    (files : List (String × String)) (c : Commit) (parents : List Commit)
    (h1 : checkoutStage s bn = .ok (s1, some c))
    (h2 : concCheck s1 rn bn (some r) (some c) = .ok parents)
    (h3 : writeAllFiles s1 files = .ok s2)
    (h4 : statusCount s2.workFiles c.tree = 0) :
    updateBranchFiles s rn bn (some r) files newOid = .ok (s2, some r) ∧
    s2.commits = s.commits := by
  have hub : headUnborn s = false := (checkoutStage_ok_some s s1 bn c h1).1
  constructor
  · simp [updateBranchFiles, h1, exbind_ok, h2, h3, commitStage, hub, h4]
  · obtain ⟨hp, _, _⟩ := writeAllFiles_pres files s1 s2 h3
    obtain ⟨_, _, _, _, hs1⟩ := checkoutStage_ok_some s s1 bn c h1
    rw [hp, hs1]

/-- C2 witness: re-writing the checked-out content is a no-op that echoes
the parent revision and leaves the commit store unchanged. -/
theorem updateBranchFiles_noop_idempotent_witness :
    updateBranchFiles sBornW "repo" "b" (some oidA) [("f.txt", "one")] newO =
      .ok (sBornW, some oidA) ∧
    sBornW.commits = sBornW.commits :=
  updateBranchFiles_noop_idempotent sBornW sBornW sBornW "repo" "b" oidA newO
    [("f.txt", "one")] cA [cA] (by decide) (by decide) (by decide) (by decide)

/-! ### Claim C10 -/

/-- C10: when HEAD is unborn, `updateBranchFiles` always creates an initial
commit — even when the status reports zero changes — and the no-op skip (a
successful return that leaves the commit store unchanged) can only happen
when HEAD was already born. -/
theorem updateBranchFiles_initial_always_commits :
    (∀ (s s2 : RepoState) (rn bn newOid : String)
       (files : List (String × String)),
      headUnborn s = true →
      writeAllFiles { s with headTarget := bn } files = .ok s2 →
      updateBranchFiles s rn bn none files newOid =
        .ok ({ s2 with
               commits := (newOid,
                 { oid := newOid, parentIds := [],
                   tree := s2.workFiles }) :: s2.commits,
               branches := setA s2.branches s2.headTarget newOid },
             some newOid)) ∧
    (∀ (s s' : RepoState) (rn bn newOid : String)
       (files : List (String × String)) (pr res : Option String),
      updateBranchFiles s rn bn pr files newOid = .ok (s', res) →
      s'.commits = s.commits →
      headUnborn s = false) := by
  constructor
  · intro s s2 rn bn newOid files hub h3
    have hco : checkoutStage s bn = .ok ({ s with headTarget := bn }, none) := by
      simp [checkoutStage, hub]
    simp [updateBranchFiles, hco, exbind_ok, concCheck, prNorm, h3,
          commitStage, hub]
  · intro s s' rn bn newOid files pr res hrun hsame
    cases hco : checkoutStage s bn with
    | error e => simp [updateBranchFiles, hco, exbind_err] at hrun
    | ok p =>
      obtain ⟨s1, hc⟩ := p
      cases hc with
      | none =>
        obtain ⟨hub, _⟩ := checkoutStage_ok_none s s1 bn hco
        cases hcc : concCheck s1 rn bn pr none with
        | error e =>
          simp [updateBranchFiles, hco, hcc, exbind_ok, exbind_err] at hrun
        | ok parents =>
          cases hw : writeAllFiles s1 files with
          | error e =>
            simp [updateBranchFiles, hco, hcc, hw, exbind_ok, exbind_err]
              at hrun
          | ok s2 =>
            have hh := hrun
            simp only [updateBranchFiles, hco, hcc, hw, exbind_ok, exbind_err,
                       pure, Except.pure, Except.ok.injEq] at hh
            rcases commitStage_cases s2 [] (headUnborn s) parents pr newOid
              with ⟨he, _⟩ | ⟨_, hinit, _⟩
            · exfalso
              have hs2 : s2.commits = s.commits := by
                obtain ⟨hp, _, _⟩ := writeAllFiles_pres files s1 s2 hw
                obtain ⟨_, hs1⟩ := checkoutStage_ok_none s s1 bn hco
                rw [hp, hs1]
              have hpair := he.symm.trans hh
              rw [Prod.mk.injEq] at hpair
              have hfst : s'.commits =
                  (newOid, { oid := newOid,
                             parentIds := parents.map Commit.oid,
                             tree := s2.workFiles }) :: s2.commits := by
                rw [← hpair.1]
              rw [hsame, hs2] at hfst
              have hlen := congrArg List.length hfst
              simp at hlen
            · exact hinit
      | some c =>
        cases hcc : concCheck s1 rn bn pr (some c) with
        | error e =>
          simp [updateBranchFiles, hco, hcc, exbind_ok, exbind_err] at hrun
        | ok parents =>
          cases hw : writeAllFiles s1 files with
          | error e =>
            simp [updateBranchFiles, hco, hcc, hw, exbind_ok, exbind_err]
              at hrun
          | ok s2 =>
            have hh := hrun
            simp only [updateBranchFiles, hco, hcc, hw, exbind_ok, exbind_err,
                       pure, Except.pure, Except.ok.injEq] at hh
            rcases commitStage_cases s2 c.tree (headUnborn s) parents pr newOid
              with ⟨he, _⟩ | ⟨_, hinit, _⟩
            · exfalso
              have hs2 : s2.commits = s.commits := by
                obtain ⟨hp, _, _⟩ := writeAllFiles_pres files s1 s2 hw
                obtain ⟨_, _, _, _, hs1⟩ := checkoutStage_ok_some s s1 bn c hco
                rw [hp, hs1]
              have hpair := he.symm.trans hh
              rw [Prod.mk.injEq] at hpair
              have hfst : s'.commits =
                  (newOid, { oid := newOid,
                             parentIds := parents.map Commit.oid,
                             tree := s2.workFiles }) :: s2.commits := by
                rw [← hpair.1]
              rw [hsame, hs2] at hfst
              have hlen := congrArg List.length hfst
              simp at hlen
            · exact hinit

/-- C10 witness: an empty files map on a fresh repository still creates the
initial commit (zero status changes), and a successful commit-store-
preserving run (a no-op write) implies a born HEAD. -/
theorem updateBranchFiles_initial_always_commits_witness :
    updateBranchFiles sUnbW "repo" "dev" none [] newO =
      .ok ({ commits := [(newO, { oid := newO, parentIds := [], tree := [] })],
             branches := [("dev", newO)], headTarget := "dev",
             workFiles := [], workDirs := [] }, some newO) ∧
    headUnborn sBornW = false :=
  ⟨updateBranchFiles_initial_always_commits.1 sUnbW
     { sUnbW with headTarget := "dev" } "repo" "dev" newO [] (by decide)
     (by decide),
   updateBranchFiles_initial_always_commits.2 sBornW sBornW "repo" "b" newO
     [("f.txt", "one")] (some oidA) (some oidA) (by decide) (by decide)⟩

/-! ### Claim C3 -/

def oidP : String := "ab12ab12ab12ab12ab12ab12ab12ab12ab12ab12"

def cP : Commit := { oid := oidP, parentIds := [], tree := [("a.txt", "v")] }

/-- A repository with one commit `cP` on the checked-out branch `master`. -/
def sPre : RepoState :=
  { commits := [(oidP, cP)], branches := [("master", oidP)],
    headTarget := "master", workFiles := cP.tree, workDirs := [] }

/-- C3 counterexample: a no-op write whose parent revision is the four-digit
abbreviation of the head commit succeeds and returns the abbreviation
itself, so the returned hash differs from `branchRevision(b)`. -/
theorem getFile_after_update_counterexample :
    updateBranchFiles sPre "repo" "master" (some "ab12") [("a.txt", "v")] newO =
      .ok (sPre, some "ab12") ∧
    getBranchRevision sPre "repo" "master" = .ok oidP ∧
    ("ab12" : String) ≠ oidP := by decide

/-- In the commit-creating branch of `commitStage`, the new branch revision
and the file written at `p` read back from the resulting state. -/
theorem read_back_commit_branch (s2 : RepoState) (rn bn p v newOid : String)
    (parents : List Commit)
    (hht : s2.headTarget = bn)
    (hwfl : lookupL s2.workFiles p = some v)
    (hsize : v.length ≤ 1024 * 1024) :
    getBranchRevision
      { s2 with
        commits := (newOid, { oid := newOid,
                              parentIds := parents.map Commit.oid,
                              tree := s2.workFiles }) :: s2.commits,
        branches := setA s2.branches s2.headTarget newOid } rn bn =
      .ok newOid ∧
    getFile
      { s2 with
        commits := (newOid, { oid := newOid,
                              parentIds := parents.map Commit.oid,
                              tree := s2.workFiles }) :: s2.commits,
        branches := setA s2.branches s2.headTarget newOid } rn bn p =
      .ok (v, newOid) := by
  have hnb : ¬ (v.length > 1024 * 1024) := by omega
  constructor
  · simp [getBranchRevision, hht, lookupL_setA_self]
  · simp [getFile, hht, lookupL_setA_self, lookupL_cons_self, treeEntry,
          hwfl, hnb]

/-- C3 (amended): after a successful `updateBranchFiles(b, pr, [(p, v)])`
returning `h` on a well-formed store, with `v` at most 1 MiB: `h` is an
abbreviation (possibly full) of `branchRevision(b)`, `h` equals
`branchRevision(b)` exactly whenever a commit was created, and
`getFile(b, p)` returns `(v, branchRevision(b))`. -/
theorem updateBranchFiles_then_read_back
    (s s' : RepoState) (rn bn p v newOid h : String) (pr : Option String)
    (hwf : ∀ kv ∈ s.commits, kv.2.oid = kv.1)
    (hrun : updateBranchFiles s rn bn pr [(p, v)] newOid = .ok (s', some h))
    (hsize : v.length ≤ 1024 * 1024) :
    ∃ rev, getBranchRevision s' rn bn = .ok rev ∧
      getFile s' rn bn p = .ok (v, rev) ∧
      strStarts h rev = true ∧
      (s'.commits ≠ s.commits → h = rev) := by
  cases hco : checkoutStage s bn with
  | error e => simp [updateBranchFiles, hco, exbind_err] at hrun
  | ok pq =>
    obtain ⟨s1, hc⟩ := pq
    cases hc with
    | none =>
      obtain ⟨hub, hs1⟩ := checkoutStage_ok_none s s1 bn hco
      cases hcc : concCheck s1 rn bn pr none with
      | error e =>
        simp [updateBranchFiles, hco, hcc, exbind_ok, exbind_err] at hrun
      | ok parents =>
        cases hw : writeAllFiles s1 [(p, v)] with
        | error e =>
          simp [updateBranchFiles, hco, hcc, hw, exbind_ok, exbind_err] at hrun
        | ok s2 =>
          have hh := hrun
          simp only [updateBranchFiles, hco, hcc, hw, exbind_ok, exbind_err,
                     pure, Except.pure, Except.ok.injEq] at hh
          have hs2 : s2 = { s1 with workFiles := setA s1.workFiles p v } :=
            writeAllFiles_single s1 s2 p v hw
          have hht : s2.headTarget = bn := by rw [hs2, hs1]
          have hwfl : lookupL s2.workFiles p = some v := by
            rw [hs2]
            exact lookupL_setA_self _ _ _
          rcases commitStage_cases s2 [] (headUnborn s) parents pr newOid
            with ⟨he, _⟩ | ⟨_, hinit, _⟩
          · have hpair := he.symm.trans hh
            rw [Prod.mk.injEq] at hpair
            obtain ⟨hsp, hhp⟩ := hpair
            injection hhp with hhp
            obtain ⟨hgbr, hgf⟩ :=
              read_back_commit_branch s2 rn bn p v newOid parents hht hwfl hsize
            refine ⟨newOid, ?_, ?_, ?_, ?_⟩
            · rw [← hsp]; exact hgbr
            · rw [← hsp]; exact hgf
            · rw [← hhp]; exact strStarts_self newOid
            · intro _; exact hhp.symm
          · rw [hinit] at hub
            cases hub
    | some c =>
      obtain ⟨hub, oid, hb, hcm, hs1⟩ := checkoutStage_ok_some s s1 bn c hco
      cases hcc : concCheck s1 rn bn pr (some c) with
      | error e =>
        simp [updateBranchFiles, hco, hcc, exbind_ok, exbind_err] at hrun
      | ok parents =>
        obtain ⟨r, c2, hpn, hl, hoid, hpar⟩ :=
          concCheck_ok_some s1 rn bn pr c parents hcc
        cases hw : writeAllFiles s1 [(p, v)] with
        | error e =>
          simp [updateBranchFiles, hco, hcc, hw, exbind_ok, exbind_err] at hrun
        | ok s2 =>
          have hh := hrun
          simp only [updateBranchFiles, hco, hcc, hw, exbind_ok, exbind_err,
                     pure, Except.pure, Except.ok.injEq] at hh
          have hs2 : s2 = { s1 with workFiles := setA s1.workFiles p v } :=
            writeAllFiles_single s1 s2 p v hw
          have hht : s2.headTarget = bn := by rw [hs2, hs1]
          have hwfl : lookupL s2.workFiles p = some v := by
            rw [hs2]
            exact lookupL_setA_self _ _ _
          rcases commitStage_cases s2 c.tree (headUnborn s) parents pr newOid
            with ⟨he, _⟩ | ⟨he, _, hzero⟩
          · have hpair := he.symm.trans hh
            rw [Prod.mk.injEq] at hpair
            obtain ⟨hsp, hhp⟩ := hpair
            injection hhp with hhp
            obtain ⟨hgbr, hgf⟩ :=
              read_back_commit_branch s2 rn bn p v newOid parents hht hwfl hsize
            refine ⟨newOid, ?_, ?_, ?_, ?_⟩
            · rw [← hsp]; exact hgbr
            · rw [← hsp]; exact hgf
            · rw [← hhp]; exact strStarts_self newOid
            · intro _; exact hhp.symm
          · have hpair := he.symm.trans hh
            rw [Prod.mk.injEq] at hpair
            obtain ⟨hsp, hhp⟩ := hpair
            have hr : r = h := by
              by_cases hemp : h = ""
              · rw [hhp, hemp] at hpn
                simp [prNorm] at hpn
              · rw [hhp] at hpn
                simp [prNorm, hemp] at hpn
                exact hpn.symm
            have hmem : p ∈ s2.workFiles.map Prod.fst := by
              rw [hs2]
              exact mem_keys_setA _ _ _
            have hagree := statusCount_zero_agree s2.workFiles c.tree hzero p hmem
            rw [hwfl] at hagree
            have hco2 : c.oid = oid :=
              hwf (oid, c) (mem_of_lookupL s.commits oid c hcm)
            obtain ⟨key, hkmem, hks⟩ := lookupCommitByRevStr_found s1 r c2 hl
            have hkey : c2.oid = key := by
              have hsmem : (key, c2) ∈ s.commits := by
                have hsc : s1.commits = s.commits := by rw [hs1]
                rw [← hsc]
                exact hkmem
              exact hwf (key, c2) hsmem
            have hs'b : s'.branches = s.branches := by rw [← hsp, hs2, hs1]
            have hs'c : s'.commits = s.commits := by rw [← hsp, hs2, hs1]
            have hnb : ¬ (v.length > 1024 * 1024) := by omega
            refine ⟨oid, ?_, ?_, ?_, ?_⟩
            · simp [getBranchRevision, hs'b, hb]
            · simp [getFile, hs'b, hb, hs'c, hcm, treeEntry, ← hagree, hnb]
            · rw [← hr, ← hco2, hoid, hkey]
              exact hks
            · intro hne
              exact absurd hs'c hne

/-- A write on a fresh repository, used to instantiate the C3 theorem. -/
def sAfterW : RepoState :=
  { commits := [(newO, { oid := newO, parentIds := [],
                         tree := [("a.txt", "hello")] })],
    branches := [("dev", newO)], headTarget := "dev",
    workFiles := [("a.txt", "hello")], workDirs := [] }

/-- C3 witness: the amended claim evaluated on a concrete initial write. -/
theorem updateBranchFiles_then_read_back_witness :
    ∃ rev, getBranchRevision sAfterW "repo" "dev" = .ok rev ∧
      getFile sAfterW "repo" "dev" "a.txt" = .ok ("hello", rev) ∧
      strStarts newO rev = true ∧
      (sAfterW.commits ≠ sUnbW.commits → newO = rev) :=
  updateBranchFiles_then_read_back sUnbW sAfterW "repo" "dev" "a.txt" "hello"
    newO newO none (by decide) (by decide) (by decide)

/-! ### Claim C7 -/

/-- C7: checking out a missing branch on a born HEAD makes
`updateBranchFiles` raise `new GitRepoError('Invalid branch')` — a typed
core error, but the generic class, not the `InvalidBranchError` class the
REST surface maps to 404 (and which the repository's own test
`test_env_api.js` expects). -/
theorem update_missing_branch_generic_error :
    updateBranchFiles sBornW "test-repo" "fake" (some oidA) [("f.txt", "x")]
      newO = .error (.gitRepoError "Invalid branch") ∧
    (JsError.gitRepoError "Invalid branch").isInvalidBranchKind = false ∧
    (JsError.gitRepoError "Invalid branch").isCoreTyped = true := by decide

/-! ### Claim C8 -/

/-- C8: the write loop of `updateBranchFiles` calls `fs.writeFileAsync`
directly and never creates intermediate directories, so a write into a
not-yet-existing subdirectory fails with `ENOENT` instead of succeeding. -/
theorem nested_write_fails_enoent :
    updateBranchFiles sBornW "test-repo" "b" (some oidA)
      [("deeply/nested/file", "Hello, world!")] newO =
      .error (.enoent "deeply/nested/file") := by decide

/-! ### Claim C4 -/

/-- C4: the promise-chain `lock` of `src/server/lib/lock.js` resolves with
the value of `unlock()` — `undefined` — instead of the body's result (first
conjunct, contradicting the claim), while it does release the lock and
propagate the body's error unchanged on failure (third conjunct).  The
async rewrite `lockRun` of `src/unnamed/part_004` passes the body's result
through (fourth conjunct). -/
theorem lock_promise_chain_loses_result :
    lockJs (⟨[]⟩ : LockState) "/tmp/testlock"
      (fun ls => (ls, .ok "magic value")) = (⟨[]⟩, .ok none) ∧
    (Except.ok (none : Option String) : Except JsError (Option String)) ≠
      .ok (some "magic value") ∧
    lockJs (⟨[]⟩ : LockState) "/tmp/testlock"
      (fun ls => (ls, (.error (.gitRepoError "Uh oh") :
        Except JsError String))) = (⟨[]⟩, .error (.gitRepoError "Uh oh")) ∧
    lockRun (⟨[]⟩ : LockState) "/tmp/testlock"
      (fun ls => (ls, .ok "magic value")) = (⟨[]⟩, .ok "magic value") := by
  decide

/-! ### Claim C5 -/

/-- C5 counterexample: on a non-zero child exit with an empty tee output
(the post-receive hook produced no report), the exit handler still
publishes a push event — with an empty change list — because it never
inspects the exit code. -/
theorem push_event_on_nonzero_exit :
    runServiceOnExit "git-receive-pack" "test-repo.git" "" 1 =
      some { repo := "test-repo.git", changes := [] } ∧
    runServiceOnExit "git-receive-pack" "test-repo.git" "" 1 ≠ none := by
  decide

/-- C5 (amended): for `git-receive-pack`, exactly one push event
`{repo, changes}` with the parsed tee output is published on child exit
regardless of the exit code; for any other service none is published. -/
theorem runService_exit_publishes_regardless (repo out : String) (code : Int) :
    runServiceOnExit "git-receive-pack" repo out code =
      some { repo := repo, changes := parseChanges out } ∧
    (∀ svc, svc ≠ "git-receive-pack" →
      runServiceOnExit svc repo out code = none) := by
  constructor
  · simp [runServiceOnExit]
  · intro svc hsvc
    simp [runServiceOnExit, hsvc]

/-- C5 witness: the amended claim evaluated at a concrete non-zero exit. -/
theorem runService_exit_publishes_regardless_witness :
    runServiceOnExit "git-receive-pack" "r.git" "" 1 =
      some { repo := "r.git", changes := parseChanges "" } ∧
    runServiceOnExit "git-upload-pack" "r.git" "" 1 = none :=
  ⟨(runService_exit_publishes_regardless "r.git" "" 1).1,
   (runService_exit_publishes_regardless "r.git" "" 1).2 "git-upload-pack"
     (by decide)⟩

/-! ### Claim C6 -/

def bigStr : String := String.mk (List.replicate 1048577 'x')

def oidC : String := "dddddddddddddddddddddddddddddddddddddddd"

def cBig : Commit :=
  { oid := oidC, parentIds := [], tree := [("big.bin", bigStr)] }

/-- A repository whose head tree holds a blob of 1 MiB + 1 bytes. -/
def sBig : RepoState :=
  { commits := [(oidC, cBig)], branches := [("master", oidC)],
    headTarget := "master", workFiles := [], workDirs := [] }

def cDir : Commit := { oid := oidC, parentIds := [], tree := [("d/x", "1")] }

/-- A repository whose head tree holds a subtree at `d`. -/
def sDir : RepoState :=
  { commits := [(oidC, cDir)], branches := [("master", oidC)],
    headTarget := "master", workFiles := cDir.tree, workDirs := ["d"] }

/-- C6: `getFile` on a blob over 1 MiB and on a non-blob entry does fail
without returning the content, but the `throw GitRepoError(...)` statements
lack `new`, so the surfaced error is a JavaScript `TypeError` — not an
error of the core's typed hierarchy as the claim states. -/
theorem getFile_large_blob_typeerror :
    getFile sBig "repo" "master" "big.bin" = .error (.typeError ctorNoNewMsg) ∧
    getFile sDir "repo" "master" "d" = .error (.typeError ctorNoNewMsg) ∧
    (JsError.typeError ctorNoNewMsg).isCoreTyped = false := by
  refine ⟨?_, by decide, by decide⟩
  have hgt : bigStr.length > 1024 * 1024 := by
    have hlen : bigStr.length = 1048577 := by
      show (String.mk (List.replicate 1048577 'x')).length = 1048577
      rw [String.length_mk, List.length_replicate]
    omega
  show (if bigStr.length > 1024 * 1024 then
          (.error (.typeError ctorNoNewMsg) : Except JsError (String × String))
        else .ok (bigStr, oidC)) = .error (.typeError ctorNoNewMsg)
  rw [if_pos hgt]

/-! ### Claim C9 -/

/-- C9: `validate(fileName, bytes)` accepts when no registered pattern
matches the file name; on a match it rejects unparsable JSON with a
diagnostic and otherwise returns the verdict of the schema check of the
first matching pattern. -/
theorem validate_spec {J : Type} (env : ValidatorEnv J) (st : ValidatorState)
    (f d : String) :
    (st.patterns.find? (fun pn => env.jsMatch pn.1 f) = none →
      validate env st f d = .ok ({ st with errors := [] }, true)) ∧
    (∀ pn, st.patterns.find? (fun pn => env.jsMatch pn.1 f) = some pn →
      env.jsonParse d = .malformed →
      validate env st f d =
        .ok ({ st with
               errors := ["File " ++ f ++ " is not proper JSON"] }, false)) ∧
    (∀ pn j, st.patterns.find? (fun pn => env.jsMatch pn.1 f) = some pn →
      env.jsonParse d = .success j →
      ∃ st2, validate env st f d = .ok (st2, (env.ajvValidate pn.2 j).1)) := by
  refine ⟨?_, ?_, ?_⟩
  · intro hf
    simp [validate, hf]
  · intro pn hf hp
    simp [validate, hf, hp]
  · intro pn j hf hp
    by_cases hv : (env.ajvValidate pn.2 j).1 = true
    · exact ⟨{ st with errors := [] }, by simp [validate, hf, hp, hv]⟩
    · have hv2 : (env.ajvValidate pn.2 j).1 = false := by
        simpa using hv
      refine ⟨{ st with errors := List.map (fun e => "File " ++ f ++ " invalid format: " ++ e) (env.ajvValidate pn.2 j).2 }, ?_⟩
      simp [validate, hf, hp, hv2]

/-- Environment for the C9 witness: a starts-with "regex", a two-valued
JSON parser, and a schema check accepting exactly the value 1. -/
def wEnv : ValidatorEnv Nat :=
  { jsMatch := fun pat f => strStarts pat f,
    jsonParse := fun d =>
      if d = "1" then .success 1
      else if d = "bad" then .malformed
      else .otherErr "boom",
    ajvValidate := fun _n j => (j == 1, ["must be 1"]) }

def wSt : ValidatorState :=
  { patterns := [("project", "projSchema")], errors := ["stale"] }

/-- C9 witness: the three cases evaluated on a concrete validator. -/
theorem validate_spec_witness :
    validate wEnv wSt "other" "1" = .ok ({ wSt with errors := [] }, true) ∧
    validate wEnv wSt "project.json" "bad" =
      .ok ({ wSt with
             errors := ["File " ++ "project.json" ++ " is not proper JSON"] },
           false) ∧
    ∃ st2, validate wEnv wSt "project.json" "1" =
      .ok (st2, (wEnv.ajvValidate "projSchema" 1).1) :=
  ⟨(validate_spec wEnv wSt "other" "1").1 (by decide),
   (validate_spec wEnv wSt "project.json" "bad").2.1 ("project", "projSchema")
     (by decide) (by decide),
   (validate_spec wEnv wSt "project.json" "1").2.2 ("project", "projSchema") 1
     (by decide) (by decide)⟩

end Configstore
